import Mathlib

/-!
Verification development for the `effective` personal-finance ledger
(`wallet.py`).  The Python code is shallowly embedded: Python strings are
`String`, Python numbers (ints and floats) are `Rat`, dictionaries crossing
the (de)serialization boundary are association lists of `PyValue`, the store
file is a `FileData` value, and code that can raise returns `Except`.
-/

namespace EffWallet

/-- Runtime values crossing the dictionary boundary: Python strings and
numbers (ints and floats are both modelled as rationals), plus a value
standing for any other Python object (for instance None). -/
inductive PyValue
  | str (s : String)
  | num (q : Rat)
  | null
deriving DecidableEq

/-- Errors the modelled code can raise: TypeError from the Record
constructor, KeyError (carrying the key) from a dictionary lookup. -/
inductive PyErr
  | typeError
  | keyError (k : String)
deriving DecidableEq

/-- isinstance check for str. -/
def PyValue.isStr : PyValue → Bool
  | .str _ => true
  | _ => false

/-- isinstance check for (int, float). -/
def PyValue.isNum : PyValue → Bool
  | .num _ => true
  | _ => false

/-- The string carried by a PyValue.str (default for other values). -/
def PyValue.getStr : PyValue → String
  | .str s => s
  | _ => ""

/-- The number carried by a PyValue.num (default for other values). -/
def PyValue.getNum : PyValue → Rat
  | .num q => q
  | _ => 0

/-- One transaction entry (wallet.py, class Record): the four fields as
stored after a successful construction. -/
structure Record where
  date : String
  category : String
  amount : Rat
  description : String
deriving DecidableEq

/-- Record.__init__ (wallet.py lines 6-13): the isinstance guard raises
TypeError unless date, category, description are strings and amount is an
int or float; otherwise the four values are stored verbatim. -/
def Record.mk? (date category amount description : PyValue) : Except PyErr Record :=
  match date, category, amount, description with
  | .str d, .str c, .num a, .str ds => Except.ok ⟨d, c, a, ds⟩
  | _, _, _, _ => Except.error PyErr.typeError

/-- A Python dictionary with string keys, as an association list (first
binding wins on lookup, insertion order preserved). -/
abbrev PyDict := List (String × PyValue)

/-- Record.to_dict (wallet.py lines 18-27): the four keys in source order,
values copied verbatim. -/
def Record.to_dict (r : Record) : PyDict :=
  [("date", PyValue.str r.date), ("category", PyValue.str r.category),
   ("amount", PyValue.num r.amount), ("description", PyValue.str r.description)]

/-- Python dictionary subscription data[k]: the value, or a KeyError
naming the absent key. -/
def dictGet (d : PyDict) (k : String) : Except PyErr PyValue :=
  match d.lookup k with
  | some v => Except.ok v
  | none => Except.error (PyErr.keyError k)

/-- Record.from_dict (wallet.py lines 29-34): look the four keys up in
call-argument order, left to right (the first KeyError propagates), then
run the constructor. -/
def Record.from_dict (d : PyDict) : Except PyErr Record :=
  match dictGet d ("date") with
  | Except.error e => Except.error e
  | Except.ok dt =>
    match dictGet d ("category") with
    | Except.error e => Except.error e
    | Except.ok c =>
      match dictGet d ("amount") with
      | Except.error e => Except.error e
      | Except.ok a =>
        match dictGet d ("description") with
        | Except.error e => Except.error e
        | Except.ok ds => Record.mk? dt c a ds

/-- The content of the store file as the wallet code can observe it:
absent (FileNotFoundError on open), empty or otherwise unparseable as JSON
(json.load raises JSONDecodeError), or a parsed JSON array of objects. -/
inductive FileData
  | missing
  | empty
  | malformed
  | parsed (entries : List PyDict)
deriving DecidableEq

/-- The wallet (wallet.py, class Wallet): the in-memory record list plus
the current content of its backing file. -/
structure Wallet where
  records : List Record
  file : FileData
deriving DecidableEq

/-- Wallet.save_records (wallet.py lines 89-94): overwrite the file with
the JSON serialization (to_dict per element, in order) of records. -/
def Wallet.save_records (w : Wallet) : Wallet :=
  { w with file := FileData.parsed (w.records.map Record.to_dict) }

/-- Wallet.load_records (wallet.py lines 96-106): a missing file and a
JSONDecodeError (empty or malformed file) both recover to the empty list;
a parsed array is converted entry by entry via from_dict, whose KeyError
or TypeError propagates out of the load. -/
def load_records (f : FileData) : Except PyErr (List Record) :=
  match f with
  | FileData.missing => Except.ok []
  | FileData.empty => Except.ok []
  | FileData.malformed => Except.ok []
  | FileData.parsed entries => entries.mapM Record.from_dict

/-- Wallet.__init__ (wallet.py lines 37-43): records starts empty and is
then filled by load_records; the file itself is not written. -/
def Wallet.init (f : FileData) : Except PyErr Wallet := do
  let rs ← load_records f
  Except.ok ⟨rs, f⟩

/-- Wallet.add_record (wallet.py lines 45-50): append, then save. -/
def Wallet.add_record (w : Wallet) (record : Record) : Wallet :=
  Wallet.save_records { w with records := w.records ++ [record] }

/-- Wallet.edit_record (wallet.py lines 52-60): replace in place and save
when 0 <= index < len(records) and return True, else return False and do
nothing.  The index is a Python int, so it may be negative. -/
def Wallet.edit_record (w : Wallet) (index : Int) (new_record : Record) : Wallet × Bool :=
  if 0 ≤ index ∧ index < (w.records.length : Int) then
    (Wallet.save_records { w with records := w.records.set index.toNat new_record }, true)
  else
    (w, false)

/-- Wallet.remove_record (wallet.py lines 73-78): delete the element at
the index and save when 0 <= index < len(records) and return True, else
return False and do nothing. -/
def Wallet.remove_record (w : Wallet) (index : Int) : Wallet × Bool :=
  if 0 ≤ index ∧ index < (w.records.length : Int) then
    (Wallet.save_records { w with records := w.records.eraseIdx index.toNat }, true)
  else
    (w, false)

/-- Python str.lower on one character, for the character ranges the data
of this program can contain: ASCII letters and the Cyrillic letters used
by the hardcoded category labels. -/
def pyCharLower (c : Char) : Char :=
  if 65 ≤ c.toNat ∧ c.toNat ≤ 90 then Char.ofNat (c.toNat + 32)
  else if 1040 ≤ c.toNat ∧ c.toNat ≤ 1071 then Char.ofNat (c.toNat + 32)
  else if c.toNat = 1025 then Char.ofNat 1105
  else c

/-- Python str.lower. -/
def pyLower (s : String) : String :=
  String.mk (s.data.map pyCharLower)

/-- Python substring test: needle in hay holds when needle occurs
contiguously somewhere in hay (always true for the empty needle). -/
def strIn (needle hay : List Char) : Bool :=
  (List.range (hay.length + 1)).any (fun i => (hay.drop i).take needle.length == needle)

/-- Python substring test on strings. -/
def pyIn (needle hay : String) : Bool :=
  strIn needle.data hay.data

/-- Python textual form str(amount) of the numeric amount field: amounts
are modelled as rationals, whole amounts rendered the way Python renders
the corresponding float (1000 as 1000.0); non-whole amounts get an
unambiguous num/den rendering standing in for the decimal form. -/
def pyNumStr (q : Rat) : String :=
  if q.den = 1 then toString q.num ++ ".0"
  else toString q.num ++ "/" ++ toString q.den

/-- The comprehension condition of Wallet.find_records (wallet.py lines
66-70): term in description.lower() or term in category.lower() or term in
str(amount).lower() or term == date.lower(), with term lowercased. -/
def matchesTerm (search_term : String) (record : Record) : Bool :=
  pyIn (pyLower search_term) (pyLower record.description) ||
  pyIn (pyLower search_term) (pyLower record.category) ||
  pyIn (pyLower search_term) (pyLower (pyNumStr record.amount)) ||
  (pyLower search_term == pyLower record.date)

/-- Wallet.find_records (wallet.py lines 62-71): the list comprehension
keeps, in order, the records whose fields match the search term. -/
def Wallet.find_records (w : Wallet) (search_term : String) : List Record :=
  w.records.filter (matchesTerm search_term)

/-- Wallet.display_balance (wallet.py lines 80-87): the printed triple
(balance, income, expense), where income sums the amounts of the records
whose lowercased category is the income label, expense likewise for the
expense label, and balance is their difference. -/
def Wallet.display_balance (w : Wallet) : Rat × Rat × Rat :=
  let income := ((w.records.filter (fun record => pyLower record.category == "доход")).map Record.amount).sum
  let expense := ((w.records.filter (fun record => pyLower record.category == "расход")).map Record.amount).sum
  (income - expense, income, expense)

/-- ASCII decimal digit test (CPython strptime matches digits with the
regular expression class d, modelled here over ASCII). -/
def pyIsDigit (c : Char) : Bool :=
  decide (48 ≤ c.toNat ∧ c.toNat ≤ 57)

/-- Numeric value of one ASCII digit character. -/
def digitVal (c : Char) : Nat :=
  c.toNat - 48

/-- CPython strptime year group for the directive Y: exactly four digits. -/
def parseYear : List Char → Option (Nat × List Char)
  | c1 :: c2 :: c3 :: c4 :: rest =>
    if pyIsDigit c1 = true ∧ pyIsDigit c2 = true ∧ pyIsDigit c3 = true ∧ pyIsDigit c4 = true then
      some (1000 * digitVal c1 + 100 * digitVal c2 + 10 * digitVal c3 + digitVal c4, rest)
    else none
  | _ => none

/-- CPython strptime month group for the directive m, the alternation
1[0-2] | 0[1-9] | [1-9] committed in order.  Committing is faithful here:
whenever the two-digit branch matches, the one-digit fallback leaves a
digit in front of the remainder, where the overall format then demands a
dash, so backtracking can never turn a failure into a success. -/
def parseMonth : List Char → Option (Nat × List Char)
  | [] => none
  | [c] =>
    if pyIsDigit c = true then
      if digitVal c = 1 then some (1, [])
      else if digitVal c = 0 then none
      else some (digitVal c, [])
    else none
  | c :: c2 :: rest2 =>
    if pyIsDigit c = true then
      if digitVal c = 1 then
        (if pyIsDigit c2 = true ∧ digitVal c2 ≤ 2 then some (10 + digitVal c2, rest2)
         else some (1, c2 :: rest2))
      else if digitVal c = 0 then
        (if pyIsDigit c2 = true ∧ 1 ≤ digitVal c2 then some (digitVal c2, rest2)
         else none)
      else some (digitVal c, c2 :: rest2)
    else none

/-- CPython strptime day group for the directive d, the alternation
3[01] | [12]d | 0[1-9] | [1-9] committed in order (committing is faithful
for the same reason as for the month, and because nothing follows the day
group in the format). -/
def parseDay : List Char → Option (Nat × List Char)
  | [] => none
  | [c] =>
    if pyIsDigit c = true then
      if digitVal c = 3 then some (3, [])
      else if digitVal c = 1 ∨ digitVal c = 2 then some (digitVal c, [])
      else if digitVal c = 0 then none
      else some (digitVal c, [])
    else none
  | c :: c2 :: rest2 =>
    if pyIsDigit c = true then
      if digitVal c = 3 then
        (if pyIsDigit c2 = true ∧ digitVal c2 ≤ 1 then some (30 + digitVal c2, rest2)
         else some (3, c2 :: rest2))
      else if digitVal c = 1 ∨ digitVal c = 2 then
        (if pyIsDigit c2 = true then some (10 * digitVal c + digitVal c2, rest2)
         else some (digitVal c, c2 :: rest2))
      else if digitVal c = 0 then
        (if pyIsDigit c2 = true ∧ 1 ≤ digitVal c2 then some (digitVal c2, rest2)
         else none)
      else some (digitVal c, c2 :: rest2)
    else none

/-- CPython strptime with the format Y-m-d: year group, literal dash,
month group, literal dash, day group, and the unconverted-data check that
the whole string was consumed. -/
def strptimeCore (cs : List Char) : Option (Nat × Nat × Nat) :=
  match parseYear cs with
  | none => none
  | some (y, r1) =>
    match r1 with
    | [] => none
    | ch1 :: r2 =>
      if ch1 = '-' then
        match parseMonth r2 with
        | none => none
        | some (m, r3) =>
          match r3 with
          | [] => none
          | ch2 :: r4 =>
            if ch2 = '-' then
              match parseDay r4 with
              | none => none
              | some (d, r5) => if r5 = [] then some (y, m, d) else none
            else none
      else none

/-- Gregorian leap-year rule, as in Python's datetime module. -/
def isLeap (y : Nat) : Bool :=
  decide ((y % 4 = 0 ∧ y % 100 ≠ 0) ∨ y % 400 = 0)

/-- Days in a month, as in Python's datetime module. -/
def daysInMonth (y m : Nat) : Nat :=
  if m = 2 then (if isLeap y then 29 else 28)
  else if m = 4 ∨ m = 6 ∨ m = 9 ∨ m = 11 then 30
  else 31

/-- The validity check of the datetime constructor: year between MINYEAR
and MAXYEAR, month 1-12, day 1 to the length of that month. -/
def datetimeOk (y m d : Nat) : Bool :=
  decide (1 ≤ y ∧ y ≤ 9999 ∧ 1 ≤ m ∧ m ≤ 12 ∧ 1 ≤ d ∧ d ≤ daysInMonth y m)

/-- validate_date (wallet.py lines 108-116): strptime with format Y-m-d,
True on success and False on the ValueError path. -/
def validate_date (date_text : String) : Bool :=
  match strptimeCore date_text.data with
  | some (y, m, d) => datetimeOk y m d
  | none => false

/-- All characters are ASCII digits. -/
def allDigits (cs : List Char) : Bool :=
  cs.all pyIsDigit

/-- Numeric value of a digit string, most significant digit first. -/
def digitsVal (cs : List Char) : Nat :=
  cs.foldl (fun a c => 10 * a + digitVal c) 0

/-- Split a character list on the dash character (like Python
str.split, so n dashes give n+1 groups and the result is never empty). -/
def splitOnDash : List Char → List (List Char)
  | [] => [[]]
  | c :: rest =>
    if c = '-' then [] :: splitOnDash rest
    else
      match splitOnDash rest with
      | [] => [[c]]
      | g :: gs => (c :: g) :: gs

/-- Inverse of splitOnDash: rejoin groups with a dash between them. -/
def dashJoin : List (List Char) → List Char
  | [] => []
  | [g] => g
  | g :: gs => g ++ '-' :: dashJoin gs

/-- Modelled from the spec sentence of claim C2, read literally: a real
calendar date in the exact format YYYY-MM-DD with a 4-digit year, 2-digit
month 01-12 and 2-digit day valid for that month and year (leap years
included), with dash separators and year-month-day ordering. -/
def specStrictDate (s : String) : Bool :=
  match s.data with
  | [y1, y2, y3, y4, h1, m1, m2, h2, d1, d2] =>
    allDigits [y1, y2, y3, y4] && decide (h1 = '-') && decide (h2 = '-') &&
    allDigits [m1, m2] && allDigits [d1, d2] &&
    datetimeOk (digitsVal [y1, y2, y3, y4]) (digitsVal [m1, m2]) (digitsVal [d1, d2])
  | _ => false

/-- The amended date format: three dash-separated fields in year, month,
day order; the year exactly four digits and at least 0001; the month one
or two digits with value 1-12; the day one or two digits with a value
valid for that month and year (leap years included). -/
def specFlexDate (s : String) : Bool :=
  match splitOnDash s.data with
  | [ys, ms, ds] =>
    decide (ys.length = 4) && allDigits ys &&
    decide (1 ≤ ms.length ∧ ms.length ≤ 2) && allDigits ms &&
    decide (1 ≤ ds.length ∧ ds.length ≤ 2) && allDigits ds &&
    decide (1 ≤ digitsVal ys ∧ 1 ≤ digitsVal ms ∧ digitsVal ms ≤ 12 ∧
            1 ≤ digitsVal ds ∧ digitsVal ds ≤ daysInMonth (digitsVal ys) (digitsVal ms))
  | _ => false

/-- The decomposition shared by the parser and the amended format: the
character list splits as a 4-digit year group, a dash, a 1-2 digit month
group, a dash, and a 1-2 digit day group, with the given values. -/
def FlexShape (cs : List Char) (y m d : Nat) : Prop :=
  ∃ ys ms ds, cs = ys ++ '-' :: (ms ++ '-' :: ds) ∧
    allDigits ys = true ∧ ys.length = 4 ∧ digitsVal ys = y ∧
    allDigits ms = true ∧ 1 ≤ ms.length ∧ ms.length ≤ 2 ∧ digitsVal ms = m ∧
    allDigits ds = true ∧ 1 ≤ ds.length ∧ ds.length ≤ 2 ∧ digitsVal ds = d

/-- The declarative reading of the record-match condition of
find_records: the lowercased term is a substring of the lowercased
description, or of the lowercased category, or of the lowercased textual
form of the amount, or equals the lowercased date exactly. -/
def MatchesSpec (term : String) (r : Record) : Prop :=
  pyIn (pyLower term) (pyLower r.description) = true ∨
  pyIn (pyLower term) (pyLower r.category) = true ∨
  pyIn (pyLower term) (pyLower (pyNumStr r.amount)) = true ∨
  pyLower term = pyLower r.date

/-- Concrete record used by witnesses (the one from the repository's
tests). -/
def rec1 : Record := ⟨"2023-01-01", "Income", 1000, "Salary"⟩

/-- Second concrete record used by witnesses. -/
def rec2 : Record := ⟨"2023-02-01", "Expense", 500, "Groceries"⟩

/-- Concrete two-record wallet used by witnesses, with its file in the
saved state. -/
def w0 : Wallet := ⟨[rec1, rec2], FileData.parsed [rec1.to_dict, rec2.to_dict]⟩

/-! Helper lemmas. -/

theorem strIn_nil (hay : List Char) : strIn [] hay = true := by
  rw [strIn, List.any_eq_true]
  exact ⟨0, List.mem_range.mpr (Nat.succ_pos _), by simp⟩

theorem matchesTerm_iff (term : String) (r : Record) :
    matchesTerm term r = true ↔ MatchesSpec term r := by
  rw [matchesTerm, MatchesSpec]
  simp [Bool.or_eq_true, beq_iff_eq, or_assoc]

theorem digitVal_le_nine (c : Char) (h : pyIsDigit c = true) : digitVal c ≤ 9 := by
  rw [pyIsDigit, decide_eq_true_eq] at h
  rw [digitVal]
  omega

theorem digitsVal_one (c : Char) : digitsVal [c] = digitVal c := by
  simp [digitsVal]

theorem digitsVal_two (c1 c2 : Char) :
    digitsVal [c1, c2] = 10 * digitVal c1 + digitVal c2 := by
  simp [digitsVal, List.foldl]

theorem digitsVal_four (c1 c2 c3 c4 : Char) :
    digitsVal [c1, c2, c3, c4] =
      1000 * digitVal c1 + 100 * digitVal c2 + 10 * digitVal c3 + digitVal c4 := by
  simp [digitsVal, List.foldl]
  omega

theorem digitsVal_four_le (c1 c2 c3 c4 : Char)
    (h : allDigits [c1, c2, c3, c4] = true) : digitsVal [c1, c2, c3, c4] ≤ 9999 := by
  rw [allDigits, List.all_eq_true] at h
  have h1 := digitVal_le_nine c1 (h c1 (by simp))
  have h2 := digitVal_le_nine c2 (h c2 (by simp))
  have h3 := digitVal_le_nine c3 (h c3 (by simp))
  have h4 := digitVal_le_nine c4 (h c4 (by simp))
  rw [digitsVal_four]
  omega

theorem daysInMonth_le (y m : Nat) : daysInMonth y m ≤ 31 := by
  rw [daysInMonth]
  split
  · split
    · omega
    · omega
  · split
    · omega
    · omega

theorem length_eq_four (l : List Char) (h : l.length = 4) :
    ∃ a b c d, l = [a, b, c, d] := by
  rcases l with _ | ⟨a, _ | ⟨b, _ | ⟨c, _ | ⟨d, _ | ⟨e, tl⟩⟩⟩⟩⟩ <;> simp_all

theorem allDigits_noDash (g : List Char) (h : allDigits g = true) : '-' ∉ g := by
  intro hmem
  rw [allDigits, List.all_eq_true] at h
  exact absurd (h _ hmem) (by decide)

theorem splitOnDash_ne_nil (cs : List Char) : splitOnDash cs ≠ [] := by
  cases cs with
  | nil => simp [splitOnDash]
  | cons c rest =>
    rw [splitOnDash]
    by_cases hc : c = '-'
    · simp [hc]
    · rw [if_neg hc]
      cases h : splitOnDash rest <;> simp

theorem dashJoin_splitOnDash (cs : List Char) : dashJoin (splitOnDash cs) = cs := by
  induction cs with
  | nil => rfl
  | cons c rest ih =>
    rw [splitOnDash]
    by_cases hc : c = '-'
    · rw [if_pos hc]
      cases h : splitOnDash rest with
      | nil => exact absurd h (splitOnDash_ne_nil rest)
      | cons g gs =>
        rw [h] at ih
        simp only [dashJoin, List.nil_append]
        rw [ih, hc]
    · rw [if_neg hc]
      cases h : splitOnDash rest with
      | nil => exact absurd h (splitOnDash_ne_nil rest)
      | cons g gs =>
        rw [h] at ih
        cases gs with
        | nil =>
          simp only [dashJoin] at ih ⊢
          rw [ih]
        | cons g2 gs2 =>
          simp only [dashJoin, List.cons_append] at ih ⊢
          rw [ih]

theorem splitOnDash_noDash (g : List Char) (hg : '-' ∉ g) : splitOnDash g = [g] := by
  induction g with
  | nil => rfl
  | cons c rest ih =>
    have hc : c ≠ '-' := by
      intro h
      exact hg (by rw [h]; exact List.mem_cons_self _ _)
    rw [splitOnDash, if_neg hc, ih (fun h => hg (List.mem_cons_of_mem c h))]

theorem splitOnDash_append (g rest : List Char) (hg : '-' ∉ g) :
    splitOnDash (g ++ '-' :: rest) = g :: splitOnDash rest := by
  induction g with
  | nil =>
    simp [splitOnDash]
  | cons c g2 ih =>
    have hc : c ≠ '-' := by
      intro h
      exact hg (by rw [h]; exact List.mem_cons_self _ _)
    rw [List.cons_append, splitOnDash, if_neg hc,
      ih (fun h => hg (List.mem_cons_of_mem c h))]

theorem parseYear_sound (cs : List Char) (y : Nat) (r : List Char)
    (h : parseYear cs = some (y, r)) :
    ∃ ys, cs = ys ++ r ∧ allDigits ys = true ∧ ys.length = 4 ∧ digitsVal ys = y := by
  rcases cs with _ | ⟨c1, _ | ⟨c2, _ | ⟨c3, _ | ⟨c4, rest⟩⟩⟩⟩ <;>
    simp only [parseYear] at h
  · cases h
  · cases h
  · cases h
  · cases h
  · by_cases hc : pyIsDigit c1 = true ∧ pyIsDigit c2 = true ∧ pyIsDigit c3 = true ∧
        pyIsDigit c4 = true
    · rw [if_pos hc] at h
      obtain ⟨h1, h2⟩ := Prod.mk.injEq .. ▸ Option.some.injEq .. ▸ h
      refine ⟨[c1, c2, c3, c4], by simp [h2], ?_, rfl, ?_⟩
      · simp [allDigits, hc.1, hc.2.1, hc.2.2.1, hc.2.2.2]
      · rw [digitsVal_four]
        omega
    · rw [if_neg hc] at h
      cases h

theorem parseYear_complete (ys r : List Char) (hd : allDigits ys = true)
    (hl : ys.length = 4) :
    parseYear (ys ++ r) = some (digitsVal ys, r) := by
  obtain ⟨c1, c2, c3, c4, rfl⟩ := length_eq_four ys hl
  rw [allDigits, List.all_eq_true] at hd
  have h1 := hd c1 (by simp)
  have h2 := hd c2 (by simp)
  have h3 := hd c3 (by simp)
  have h4 := hd c4 (by simp)
  simp only [List.cons_append, List.nil_append, parseYear, if_pos (⟨h1, h2, h3, h4⟩ :
    pyIsDigit c1 = true ∧ pyIsDigit c2 = true ∧ pyIsDigit c3 = true ∧ pyIsDigit c4 = true)]
  rw [digitsVal_four]

theorem parseMonth_sound (cs : List Char) (m : Nat) (r : List Char)
    (h : parseMonth cs = some (m, r)) :
    ∃ ms, cs = ms ++ r ∧ allDigits ms = true ∧ 1 ≤ ms.length ∧ ms.length ≤ 2 ∧
      digitsVal ms = m ∧ 1 ≤ m ∧ m ≤ 12 := by
  rcases cs with _ | ⟨c, _ | ⟨c2, rest2⟩⟩
  · simp only [parseMonth] at h
    cases h
  · simp only [parseMonth] at h
    by_cases hc : pyIsDigit c = true
    case neg => rw [if_neg hc] at h; cases h
    case pos =>
    rw [if_pos hc] at h
    have hle := digitVal_le_nine c hc
    by_cases hc1 : digitVal c = 1
    · rw [if_pos hc1] at h
      obtain ⟨h1, h2⟩ := Prod.mk.injEq .. ▸ Option.some.injEq .. ▸ h
      exact ⟨[c], by simp [h2], by simp [allDigits, hc], by simp, by simp,
        by rw [digitsVal_one]; omega, by omega, by omega⟩
    · by_cases hc0 : digitVal c = 0
      · rw [if_neg hc1, if_pos hc0] at h
        cases h
      · rw [if_neg hc1, if_neg hc0] at h
        obtain ⟨h1, h2⟩ := Prod.mk.injEq .. ▸ Option.some.injEq .. ▸ h
        exact ⟨[c], by simp [h2], by simp [allDigits, hc], by simp, by simp,
          by rw [digitsVal_one]; omega, by omega, by omega⟩
  · simp only [parseMonth] at h
    by_cases hc : pyIsDigit c = true
    case neg => rw [if_neg hc] at h; cases h
    case pos =>
    rw [if_pos hc] at h
    have hle := digitVal_le_nine c hc
    by_cases hc1 : digitVal c = 1
    · rw [if_pos hc1] at h
      by_cases hc2 : pyIsDigit c2 = true ∧ digitVal c2 ≤ 2
      · rw [if_pos hc2] at h
        obtain ⟨h1, h2⟩ := Prod.mk.injEq .. ▸ Option.some.injEq .. ▸ h
        refine ⟨[c, c2], by simp [h2], by simp [allDigits, hc, hc2.1], by simp, by simp,
          ?_, by omega, by omega⟩
        rw [digitsVal_two]
        omega
      · rw [if_neg hc2] at h
        obtain ⟨h1, h2⟩ := Prod.mk.injEq .. ▸ Option.some.injEq .. ▸ h
        exact ⟨[c], by simp [h2], by simp [allDigits, hc], by simp, by simp,
          by rw [digitsVal_one]; omega, by omega, by omega⟩
    · by_cases hc0 : digitVal c = 0
      · rw [if_neg hc1, if_pos hc0] at h
        by_cases hc2 : pyIsDigit c2 = true ∧ 1 ≤ digitVal c2
        · rw [if_pos hc2] at h
          obtain ⟨h1, h2⟩ := Prod.mk.injEq .. ▸ Option.some.injEq .. ▸ h
          have hle2 := digitVal_le_nine c2 hc2.1
          refine ⟨[c, c2], by simp [h2], by simp [allDigits, hc, hc2.1], by simp, by simp,
            ?_, by omega, by omega⟩
          rw [digitsVal_two]
          omega
        · rw [if_neg hc2] at h
          cases h
      · rw [if_neg hc1, if_neg hc0] at h
        obtain ⟨h1, h2⟩ := Prod.mk.injEq .. ▸ Option.some.injEq .. ▸ h
        exact ⟨[c], by simp [h2], by simp [allDigits, hc], by simp, by simp,
          by rw [digitsVal_one]; omega, by omega, by omega⟩

theorem parseMonth_complete (ms r : List Char) (hd : allDigits ms = true)
    (hl1 : 1 ≤ ms.length) (hl2 : ms.length ≤ 2)
    (hm1 : 1 ≤ digitsVal ms) (hm2 : digitsVal ms ≤ 12)
    (hr : ∀ c2, r.head? = some c2 → pyIsDigit c2 = false) :
    parseMonth (ms ++ r) = some (digitsVal ms, r) := by
  rcases ms with _ | ⟨c1, _ | ⟨c2, _ | ⟨c3, tl⟩⟩⟩
  · simp at hl1
  · rw [allDigits, List.all_eq_true] at hd
    have h1 := hd c1 (by simp)
    have hle1 := digitVal_le_nine c1 h1
    rw [digitsVal_one] at hm1 hm2 ⊢
    rw [List.cons_append, List.nil_append]
    cases r with
    | nil =>
      simp only [parseMonth, if_pos h1]
      by_cases hv1 : digitVal c1 = 1
      · rw [if_pos hv1, hv1]
      · rw [if_neg hv1, if_neg (by omega)]
    | cons cr rrest =>
      have hcr := hr cr (by rfl)
      simp only [parseMonth, if_pos h1]
      by_cases hv1 : digitVal c1 = 1
      · rw [if_pos hv1, if_neg (by simp [hcr]), hv1]
      · rw [if_neg hv1, if_neg (by omega)]
  · rw [allDigits, List.all_eq_true] at hd
    have h1 := hd c1 (by simp)
    have h2 := hd c2 (by simp)
    have hle1 := digitVal_le_nine c1 h1
    have hle2 := digitVal_le_nine c2 h2
    rw [digitsVal_two] at hm1 hm2 ⊢
    rw [List.cons_append, List.cons_append, List.nil_append]
    simp only [parseMonth, if_pos h1]
    by_cases hv1 : digitVal c1 = 1
    · rw [if_pos hv1, if_pos (⟨h2, by omega⟩ : pyIsDigit c2 = true ∧ digitVal c2 ≤ 2)]
      have he : 10 + digitVal c2 = 10 * digitVal c1 + digitVal c2 := by omega
      rw [he]
    · have hv0 : digitVal c1 = 0 := by omega
      rw [if_neg hv1, if_pos hv0,
        if_pos (⟨h2, by omega⟩ : pyIsDigit c2 = true ∧ 1 ≤ digitVal c2)]
      have he : digitVal c2 = 10 * digitVal c1 + digitVal c2 := by omega
      rw [← he]
  · simp at hl2

theorem parseDay_sound (cs : List Char) (d : Nat) (r : List Char)
    (h : parseDay cs = some (d, r)) :
    ∃ ds, cs = ds ++ r ∧ allDigits ds = true ∧ 1 ≤ ds.length ∧ ds.length ≤ 2 ∧
      digitsVal ds = d ∧ 1 ≤ d ∧ d ≤ 31 := by
  rcases cs with _ | ⟨c, _ | ⟨c2, rest2⟩⟩
  · simp only [parseDay] at h
    cases h
  · simp only [parseDay] at h
    by_cases hc : pyIsDigit c = true
    case neg => rw [if_neg hc] at h; cases h
    case pos =>
    rw [if_pos hc] at h
    have hle := digitVal_le_nine c hc
    by_cases hc3 : digitVal c = 3
    · rw [if_pos hc3] at h
      obtain ⟨h1, h2⟩ := Prod.mk.injEq .. ▸ Option.some.injEq .. ▸ h
      exact ⟨[c], by simp [h2], by simp [allDigits, hc], by simp, by simp,
        by rw [digitsVal_one]; omega, by omega, by omega⟩
    · by_cases hc12 : digitVal c = 1 ∨ digitVal c = 2
      · rw [if_neg hc3, if_pos hc12] at h
        obtain ⟨h1, h2⟩ := Prod.mk.injEq .. ▸ Option.some.injEq .. ▸ h
        exact ⟨[c], by simp [h2], by simp [allDigits, hc], by simp, by simp,
          by rw [digitsVal_one]; omega, by omega, by omega⟩
      · by_cases hc0 : digitVal c = 0
        · rw [if_neg hc3, if_neg hc12, if_pos hc0] at h
          cases h
        · rw [if_neg hc3, if_neg hc12, if_neg hc0] at h
          obtain ⟨h1, h2⟩ := Prod.mk.injEq .. ▸ Option.some.injEq .. ▸ h
          exact ⟨[c], by simp [h2], by simp [allDigits, hc], by simp, by simp,
            by rw [digitsVal_one]; omega, by omega, by omega⟩
  · simp only [parseDay] at h
    by_cases hc : pyIsDigit c = true
    case neg => rw [if_neg hc] at h; cases h
    case pos =>
    rw [if_pos hc] at h
    have hle := digitVal_le_nine c hc
    by_cases hc3 : digitVal c = 3
    · rw [if_pos hc3] at h
      by_cases hc2 : pyIsDigit c2 = true ∧ digitVal c2 ≤ 1
      · rw [if_pos hc2] at h
        obtain ⟨h1, h2⟩ := Prod.mk.injEq .. ▸ Option.some.injEq .. ▸ h
        refine ⟨[c, c2], by simp [h2], by simp [allDigits, hc, hc2.1], by simp, by simp,
          ?_, by omega, by omega⟩
        rw [digitsVal_two]
        omega
      · rw [if_neg hc2] at h
        obtain ⟨h1, h2⟩ := Prod.mk.injEq .. ▸ Option.some.injEq .. ▸ h
        exact ⟨[c], by simp [h2], by simp [allDigits, hc], by simp, by simp,
          by rw [digitsVal_one]; omega, by omega, by omega⟩
    · by_cases hc12 : digitVal c = 1 ∨ digitVal c = 2
      · rw [if_neg hc3, if_pos hc12] at h
        by_cases hc2 : pyIsDigit c2 = true
        · rw [if_pos hc2] at h
          obtain ⟨h1, h2⟩ := Prod.mk.injEq .. ▸ Option.some.injEq .. ▸ h
          have hle2 := digitVal_le_nine c2 hc2
          refine ⟨[c, c2], by simp [h2], by simp [allDigits, hc, hc2], by simp, by simp,
            ?_, by omega, by omega⟩
          rw [digitsVal_two]
          omega
        · rw [if_neg hc2] at h
          obtain ⟨h1, h2⟩ := Prod.mk.injEq .. ▸ Option.some.injEq .. ▸ h
          exact ⟨[c], by simp [h2], by simp [allDigits, hc], by simp, by simp,
            by rw [digitsVal_one]; omega, by omega, by omega⟩
      · by_cases hc0 : digitVal c = 0
        · rw [if_neg hc3, if_neg hc12, if_pos hc0] at h
          by_cases hc2 : pyIsDigit c2 = true ∧ 1 ≤ digitVal c2
          · rw [if_pos hc2] at h
            obtain ⟨h1, h2⟩ := Prod.mk.injEq .. ▸ Option.some.injEq .. ▸ h
            have hle2 := digitVal_le_nine c2 hc2.1
            refine ⟨[c, c2], by simp [h2], by simp [allDigits, hc, hc2.1], by simp, by simp,
              ?_, by omega, by omega⟩
            rw [digitsVal_two]
            omega
          · rw [if_neg hc2] at h
            cases h
        · rw [if_neg hc3, if_neg hc12, if_neg hc0] at h
          obtain ⟨h1, h2⟩ := Prod.mk.injEq .. ▸ Option.some.injEq .. ▸ h
          exact ⟨[c], by simp [h2], by simp [allDigits, hc], by simp, by simp,
            by rw [digitsVal_one]; omega, by omega, by omega⟩

theorem parseDay_complete (ds r : List Char) (hd : allDigits ds = true)
    (hl1 : 1 ≤ ds.length) (hl2 : ds.length ≤ 2)
    (hd1 : 1 ≤ digitsVal ds) (hd2 : digitsVal ds ≤ 31)
    (hr : ∀ c2, r.head? = some c2 → pyIsDigit c2 = false) :
    parseDay (ds ++ r) = some (digitsVal ds, r) := by
  rcases ds with _ | ⟨c1, _ | ⟨c2, _ | ⟨c3, tl⟩⟩⟩
  · simp at hl1
  · rw [allDigits, List.all_eq_true] at hd
    have h1 := hd c1 (by simp)
    have hle1 := digitVal_le_nine c1 h1
    rw [digitsVal_one] at hd1 hd2 ⊢
    rw [List.cons_append, List.nil_append]
    cases r with
    | nil =>
      simp only [parseDay, if_pos h1]
      by_cases hv3 : digitVal c1 = 3
      · rw [if_pos hv3, hv3]
      · by_cases hv12 : digitVal c1 = 1 ∨ digitVal c1 = 2
        · rw [if_neg hv3, if_pos hv12]
        · rw [if_neg hv3, if_neg hv12, if_neg (by omega)]
    | cons cr rrest =>
      have hcr := hr cr (by rfl)
      simp only [parseDay, if_pos h1]
      by_cases hv3 : digitVal c1 = 3
      · rw [if_pos hv3, if_neg (by simp [hcr]), hv3]
      · by_cases hv12 : digitVal c1 = 1 ∨ digitVal c1 = 2
        · rw [if_neg hv3, if_pos hv12, if_neg (by simp [hcr])]
        · rw [if_neg hv3, if_neg hv12, if_neg (by omega)]
  · rw [allDigits, List.all_eq_true] at hd
    have h1 := hd c1 (by simp)
    have h2 := hd c2 (by simp)
    have hle1 := digitVal_le_nine c1 h1
    have hle2 := digitVal_le_nine c2 h2
    rw [digitsVal_two] at hd1 hd2 ⊢
    rw [List.cons_append, List.cons_append, List.nil_append]
    simp only [parseDay, if_pos h1]
    by_cases hv3 : digitVal c1 = 3
    · rw [if_pos hv3, if_pos (⟨h2, by omega⟩ : pyIsDigit c2 = true ∧ digitVal c2 ≤ 1)]
      have he : 30 + digitVal c2 = 10 * digitVal c1 + digitVal c2 := by omega
      rw [he]
    · by_cases hv12 : digitVal c1 = 1 ∨ digitVal c1 = 2
      · rw [if_neg hv3, if_pos hv12, if_pos h2]
      · have hv0 : digitVal c1 = 0 := by omega
        rw [if_neg hv3, if_neg hv12, if_pos hv0,
          if_pos (⟨h2, by omega⟩ : pyIsDigit c2 = true ∧ 1 ≤ digitVal c2)]
        have he : digitVal c2 = 10 * digitVal c1 + digitVal c2 := by omega
        rw [← he]
  · simp at hl2

theorem validate_date_iff (s : String) :
    validate_date s = true ↔
      ∃ y m d, FlexShape s.data y m d ∧
        1 ≤ y ∧ 1 ≤ m ∧ m ≤ 12 ∧ 1 ≤ d ∧ d ≤ daysInMonth y m := by
  rw [validate_date]
  constructor
  · intro h
    cases hp : strptimeCore s.data with
    | none => rw [hp] at h; cases h
    | some t =>
      obtain ⟨y, m, d⟩ := t
      rw [hp] at h
      have h2 : datetimeOk y m d = true := h
      rw [datetimeOk, decide_eq_true_eq] at h2
      obtain ⟨hy1, hy2, hm1, hm2, hd1, hd2⟩ := h2
      rw [strptimeCore] at hp
      split at hp
      next => cases hp
      next y2 r1 hY =>
      split at hp
      next => cases hp
      next ch1 r2 =>
      split at hp
      case isFalse => cases hp
      case isTrue hch1 =>
      split at hp
      next => cases hp
      next m2 r3 hM =>
      split at hp
      next => cases hp
      next ch2 r4 =>
      split at hp
      case isFalse => cases hp
      case isTrue hch2 =>
      split at hp
      next => cases hp
      next d2 r5 hD =>
      split at hp
      case isFalse => cases hp
      case isTrue hr5 =>
      obtain ⟨he1, he2, he3⟩ :=
        Prod.mk.injEq .. ▸ Prod.mk.injEq .. ▸ Option.some.injEq .. ▸ hp
      subst he1 he2 he3 hch1 hch2 hr5
      obtain ⟨ys, hys, hysd, hysl, hysv⟩ := parseYear_sound _ _ _ hY
      obtain ⟨ms, hms, hmsd, hmsl1, hmsl2, hmsv, _, _⟩ := parseMonth_sound _ _ _ hM
      obtain ⟨ds, hds, hdsd, hdsl1, hdsl2, hdsv, _, _⟩ := parseDay_sound _ _ _ hD
      rw [List.append_nil] at hds
      refine ⟨y2, m2, d2, ⟨ys, ms, ds, ?_, hysd, hysl, hysv, hmsd, hmsl1, hmsl2,
        hmsv, hdsd, hdsl1, hdsl2, hdsv⟩, hy1, hm1, hm2, hd1, hd2⟩
      rw [hys, hms, hds]
  · rintro ⟨y, m, d, ⟨ys, ms, ds, hcs, hysd, hysl, hysv, hmsd, hmsl1, hmsl2, hmsv,
      hdsd, hdsl1, hdsl2, hdsv⟩, hy1, hm1, hm2, hd1, hd2⟩
    have hY : parseYear s.data = some (y, '-' :: (ms ++ '-' :: ds)) := by
      rw [hcs, parseYear_complete ys _ hysd hysl, hysv]
    have hM : parseMonth (ms ++ '-' :: ds) = some (m, '-' :: ds) := by
      rw [parseMonth_complete ms ('-' :: ds) hmsd hmsl1 hmsl2 (by omega) (by omega)
        (fun c2 hc2 => by
          rw [List.head?] at hc2
          cases hc2
          decide), hmsv]
    have hD : parseDay ds = some (d, []) := by
      have hdle : digitsVal ds ≤ 31 :=
        le_trans (hdsv ▸ hd2) (daysInMonth_le y m)
      have := parseDay_complete ds [] hdsd hdsl1 hdsl2 (by omega) hdle
        (fun c2 hc2 => by cases hc2)
      rw [List.append_nil] at this
      rw [this, hdsv]
    have hcore : strptimeCore s.data = some (y, m, d) := by
      rw [strptimeCore, hY]
      simp [hM, hD]
    rw [hcore]
    show datetimeOk y m d = true
    rw [datetimeOk, decide_eq_true_eq]
    refine ⟨hy1, ?_, hm1, hm2, hd1, hd2⟩
    obtain ⟨c1, c2, c3, c4, rfl⟩ := length_eq_four ys hysl
    have := digitsVal_four_le c1 c2 c3 c4 hysd
    omega

theorem specFlexDate_iff (s : String) :
    specFlexDate s = true ↔
      ∃ y m d, FlexShape s.data y m d ∧
        1 ≤ y ∧ 1 ≤ m ∧ m ≤ 12 ∧ 1 ≤ d ∧ d ≤ daysInMonth y m := by
  rw [specFlexDate]
  constructor
  · intro h
    rcases hsp : splitOnDash s.data with _ | ⟨ys, _ | ⟨ms, _ | ⟨ds, _ | ⟨e4, t4⟩⟩⟩⟩ <;>
      rw [hsp] at h
    · cases h
    · cases h
    · cases h
    · simp only [Bool.and_eq_true, decide_eq_true_eq] at h
      obtain ⟨⟨⟨⟨⟨⟨hysl, hysd⟩, hmsl⟩, hmsd⟩, hdsl⟩, hdsd⟩, hy1, hm1, hm2, hd1, hd2⟩ := h
      have hj := dashJoin_splitOnDash s.data
      rw [hsp] at hj
      simp only [dashJoin] at hj
      exact ⟨digitsVal ys, digitsVal ms, digitsVal ds,
        ⟨ys, ms, ds, hj.symm, hysd, hysl, rfl, hmsd, hmsl.1, hmsl.2, rfl,
          hdsd, hdsl.1, hdsl.2, rfl⟩, hy1, hm1, hm2, hd1, hd2⟩
    · cases h
  · rintro ⟨y, m, d, ⟨ys, ms, ds, hcs, hysd, hysl, hysv, hmsd, hmsl1, hmsl2, hmsv,
      hdsd, hdsl1, hdsl2, hdsv⟩, hy1, hm1, hm2, hd1, hd2⟩
    rw [hcs, splitOnDash_append ys _ (allDigits_noDash ys hysd),
      splitOnDash_append ms _ (allDigits_noDash ms hmsd),
      splitOnDash_noDash ds (allDigits_noDash ds hdsd)]
    simp only [Bool.and_eq_true, decide_eq_true_eq]
    subst hysv hmsv hdsv
    exact ⟨⟨⟨⟨⟨⟨hysl, hysd⟩, hmsl1, hmsl2⟩, hmsd⟩, hdsl1, hdsl2⟩, hdsd⟩,
      hy1, hm1, hm2, hd1, hd2⟩

/-! Claim theorems and witnesses. -/

/-- C1: find_records returns exactly the subsequence of records, in
original insertion order, matching the search term case-insensitively on
description, category or the amount's textual form as a substring, or on
the date as an exact match; it is the largest such subsequence, it is
empty when nothing matches, and being a total function it never raises. -/
theorem find_records_spec (w : Wallet) (term : String) :
    List.Sublist (Wallet.find_records w term) w.records ∧
    (∀ r ∈ Wallet.find_records w term, MatchesSpec term r) ∧
    (∀ s : List Record, List.Sublist s w.records → (∀ r ∈ s, MatchesSpec term r) →
      List.Sublist s (Wallet.find_records w term)) ∧
    ((∀ r ∈ w.records, ¬ MatchesSpec term r) → Wallet.find_records w term = []) := by
  refine ⟨List.filter_sublist _, ?_, ?_, ?_⟩
  · intro r hr
    rw [Wallet.find_records, List.mem_filter] at hr
    exact (matchesTerm_iff term r).mp hr.2
  · intro s hs hall
    have hself : s.filter (matchesTerm term) = s :=
      List.filter_eq_self.mpr (fun a ha => (matchesTerm_iff term a).mpr (hall a ha))
    have := hs.filter (matchesTerm term)
    rwa [hself] at this
  · intro h
    exact List.filter_eq_nil_iff.mpr
      (fun a ha hma => h a ha ((matchesTerm_iff term a).mp hma))

theorem find_records_spec_witness :
    List.Sublist (Wallet.find_records w0 "zzz") w0.records ∧ Wallet.find_records w0 "zzz" = [] :=
  ⟨(find_records_spec w0 "zzz").1,
   (find_records_spec w0 "zzz").2.2.2 (by simp only [MatchesSpec]; decide)⟩

/-- C10: searching with the empty term returns the whole record list
unchanged and in order, because the empty string is a substring of every
description. -/
theorem find_records_empty_term (w : Wallet) :
    Wallet.find_records w "" = w.records := by
  apply List.filter_eq_self.mpr
  intro r _
  rw [matchesTerm]
  have h1 : pyIn (pyLower "") (pyLower r.description) = true := by
    have he : (pyLower "").data = [] := rfl
    rw [pyIn, he]
    exact strIn_nil _
  simp [h1]

/-- C3: from_dict inverts to_dict exactly, field for field, for every
record; and on a dictionary missing any of the four required keys,
from_dict fails with a KeyError naming a missing key. -/
theorem from_dict_to_dict (r : Record) (d : PyDict) :
    Record.from_dict (Record.to_dict r) = Except.ok r ∧
    ((d.lookup ("date") = none ∨ d.lookup ("category") = none ∨
      d.lookup ("amount") = none ∨ d.lookup ("description") = none) →
      ∃ k, Record.from_dict d = Except.error (PyErr.keyError k)) := by
  constructor
  · rfl
  · intro hmiss
    cases hdt : d.lookup ("date") with
    | none => exact ⟨"date", by rw [Record.from_dict, dictGet, hdt]⟩
    | some v1 =>
      cases hc : d.lookup ("category") with
      | none => exact ⟨"category", by rw [Record.from_dict, dictGet, hdt, dictGet, hc]⟩
      | some v2 =>
        cases ha : d.lookup ("amount") with
        | none =>
          exact ⟨"amount", by rw [Record.from_dict, dictGet, hdt, dictGet, hc, dictGet, ha]⟩
        | some v3 =>
          cases hds : d.lookup ("description") with
          | none =>
            exact ⟨"description",
              by rw [Record.from_dict, dictGet, hdt, dictGet, hc, dictGet, ha, dictGet, hds]⟩
          | some v4 => simp [hdt, hc, ha, hds] at hmiss

theorem from_dict_to_dict_witness :
    Record.from_dict (Record.to_dict rec1) = Except.ok rec1 ∧
    (∃ k, Record.from_dict [("category", PyValue.str "Income")] =
      Except.error (PyErr.keyError k)) :=
  ⟨(from_dict_to_dict rec1 []).1,
   (from_dict_to_dict rec1 [("category", PyValue.str "Income")]).2 (Or.inl (by decide))⟩

/-- C9: the Record constructor succeeds exactly when date, category and
description are strings and amount is a number, storing the four values
verbatim (negative amounts included); on any type mismatch it fails with
a TypeError. -/
theorem record_ctor_spec (d c a ds : PyValue) :
    (PyValue.isStr d = true → PyValue.isStr c = true → PyValue.isNum a = true →
      PyValue.isStr ds = true →
      Record.mk? d c a ds =
        Except.ok ⟨PyValue.getStr d, PyValue.getStr c, PyValue.getNum a, PyValue.getStr ds⟩) ∧
    (¬ (PyValue.isStr d = true ∧ PyValue.isStr c = true ∧ PyValue.isNum a = true ∧
        PyValue.isStr ds = true) →
      Record.mk? d c a ds = Except.error PyErr.typeError) := by
  constructor
  · intro h1 h2 h3 h4
    cases d <;> cases c <;> cases a <;> cases ds <;>
      simp_all [PyValue.isStr, PyValue.isNum, Record.mk?, PyValue.getStr, PyValue.getNum]
  · intro h
    cases d <;> cases c <;> cases a <;> cases ds <;>
      simp_all [PyValue.isStr, PyValue.isNum, Record.mk?]

theorem record_ctor_spec_witness :
    Record.mk? (PyValue.str "2023-01-01") (PyValue.str "Expense")
        (PyValue.num (-50)) (PyValue.str "Coffee") =
      Except.ok ⟨"2023-01-01", "Expense", -50, "Coffee"⟩ ∧
    Record.mk? (PyValue.num 5) (PyValue.str "Expense")
        (PyValue.num (-50)) (PyValue.str "Coffee") =
      Except.error PyErr.typeError :=
  ⟨(record_ctor_spec (PyValue.str "2023-01-01") (PyValue.str "Expense")
      (PyValue.num (-50)) (PyValue.str "Coffee")).1 rfl rfl rfl rfl,
   (record_ctor_spec (PyValue.num 5) (PyValue.str "Expense")
      (PyValue.num (-50)) (PyValue.str "Coffee")).2 (by decide)⟩

/-- C7: constructing a Wallet on a missing, empty, or unparseable file
initializes records to the empty sequence without surfacing any error. -/
theorem wallet_init_recovers :
    Wallet.init FileData.missing = Except.ok ⟨[], FileData.missing⟩ ∧
    Wallet.init FileData.empty = Except.ok ⟨[], FileData.empty⟩ ∧
    Wallet.init FileData.malformed = Except.ok ⟨[], FileData.malformed⟩ :=
  ⟨rfl, rfl, rfl⟩

/-- C8: add_record appends at the end (duplicates allowed), and after an
add or a successful edit or remove the file holds exactly the
serialization, to_dict per element in order, of the current records. -/
theorem mutation_persistence (w : Wallet) (r r2 : Record) (i : Int) :
    (Wallet.add_record w r).records = w.records ++ [r] ∧
    (Wallet.add_record w r).file =
      FileData.parsed ((Wallet.add_record w r).records.map Record.to_dict) ∧
    (Wallet.add_record (Wallet.add_record w r) r).records = w.records ++ [r, r] ∧
    ((Wallet.edit_record w i r2).2 = true →
      (Wallet.edit_record w i r2).1.file =
        FileData.parsed ((Wallet.edit_record w i r2).1.records.map Record.to_dict)) ∧
    ((Wallet.remove_record w i).2 = true →
      (Wallet.remove_record w i).1.file =
        FileData.parsed ((Wallet.remove_record w i).1.records.map Record.to_dict)) := by
  refine ⟨rfl, rfl, by simp [Wallet.add_record, Wallet.save_records], ?_, ?_⟩
  · intro h
    by_cases hc : 0 ≤ i ∧ i < (w.records.length : Int)
    · simp [Wallet.edit_record, if_pos hc, Wallet.save_records]
    · rw [Wallet.edit_record, if_neg hc] at h
      exact absurd h (by simp)
  · intro h
    by_cases hc : 0 ≤ i ∧ i < (w.records.length : Int)
    · simp [Wallet.remove_record, if_pos hc, Wallet.save_records]
    · rw [Wallet.remove_record, if_neg hc] at h
      exact absurd h (by simp)

theorem mutation_persistence_witness :
    (Wallet.add_record w0 rec1).records = w0.records ++ [rec1] ∧
    (Wallet.edit_record w0 0 rec2).2 = true →
      (Wallet.edit_record w0 0 rec2).1.file =
        FileData.parsed ((Wallet.edit_record w0 0 rec2).1.records.map Record.to_dict) :=
  fun h => (mutation_persistence w0 rec1 rec2 0).2.2.2.1 h.2

/-- C5: edit_record with an in-range index replaces exactly the record at
that index, persists, and returns true; with any other index (negative or
too large) it returns false and changes neither the records nor the
file. -/
theorem edit_record_spec (w : Wallet) (i : Int) (r : Record) :
    (0 ≤ i ∧ i < (w.records.length : Int) →
      (Wallet.edit_record w i r).2 = true ∧
      (Wallet.edit_record w i r).1.records.length = w.records.length ∧
      (Wallet.edit_record w i r).1.records[i.toNat]? = some r ∧
      (∀ j : Nat, j ≠ i.toNat → (Wallet.edit_record w i r).1.records[j]? = w.records[j]?) ∧
      (Wallet.edit_record w i r).1.file =
        FileData.parsed ((Wallet.edit_record w i r).1.records.map Record.to_dict)) ∧
    (¬ (0 ≤ i ∧ i < (w.records.length : Int)) →
      Wallet.edit_record w i r = (w, false)) := by
  constructor
  · intro h
    have hlt : i.toNat < w.records.length := by omega
    rw [Wallet.edit_record, if_pos h]
    refine ⟨rfl, by simp [Wallet.save_records], ?_, ?_, rfl⟩
    · simp [Wallet.save_records, List.getElem?_set_self hlt]
    · intro j hj
      simp [Wallet.save_records, List.getElem?_set_ne (Ne.symm hj)]
  · intro h
    rw [Wallet.edit_record, if_neg h]

theorem edit_record_spec_witness :
    (Wallet.edit_record w0 0 rec2).2 = true ∧
    (Wallet.edit_record w0 0 rec2).1.records[0]? = some rec2 ∧
    Wallet.edit_record w0 5 rec2 = (w0, false) ∧
    Wallet.edit_record w0 (-1) rec2 = (w0, false) :=
  ⟨((edit_record_spec w0 0 rec2).1 (by decide)).1,
   ((edit_record_spec w0 0 rec2).1 (by decide)).2.2.1,
   (edit_record_spec w0 5 rec2).2 (by decide),
   (edit_record_spec w0 (-1) rec2).2 (by decide)⟩

/-- C6: remove_record with an in-range index deletes exactly the record
at that index (later records shift down one position), persists, and
returns true; with any other index it returns false and performs no
mutation. -/
theorem remove_record_spec (w : Wallet) (i : Int) :
    (0 ≤ i ∧ i < (w.records.length : Int) →
      (Wallet.remove_record w i).2 = true ∧
      (Wallet.remove_record w i).1.records.length + 1 = w.records.length ∧
      (∀ j : Nat, j < i.toNat → (Wallet.remove_record w i).1.records[j]? = w.records[j]?) ∧
      (∀ j : Nat, i.toNat ≤ j → (Wallet.remove_record w i).1.records[j]? = w.records[j + 1]?) ∧
      (Wallet.remove_record w i).1.file =
        FileData.parsed ((Wallet.remove_record w i).1.records.map Record.to_dict)) ∧
    (¬ (0 ≤ i ∧ i < (w.records.length : Int)) →
      Wallet.remove_record w i = (w, false)) := by
  constructor
  · intro h
    have hlt : i.toNat < w.records.length := by omega
    rw [Wallet.remove_record, if_pos h]
    refine ⟨rfl, ?_, ?_, ?_, rfl⟩
    · simp [Wallet.save_records, List.length_eraseIdx, if_pos hlt]
      omega
    · intro j hj
      simp [Wallet.save_records, List.getElem?_eraseIdx_of_lt _ _ _ hj]
    · intro j hj
      simp [Wallet.save_records, List.getElem?_eraseIdx_of_ge _ _ _ hj]
  · intro h
    rw [Wallet.remove_record, if_neg h]

theorem remove_record_spec_witness :
    (Wallet.remove_record w0 0).2 = true ∧
    (Wallet.remove_record w0 0).1.records[0]? = w0.records[1]? ∧
    (Wallet.remove_record w0 0).1.records.length + 1 = w0.records.length ∧
    Wallet.remove_record w0 2 = (w0, false) :=
  ⟨((remove_record_spec w0 0).1 (by decide)).1,
   ((remove_record_spec w0 0).1 (by decide)).2.2.2.1 0 (by decide),
   ((remove_record_spec w0 0).1 (by decide)).2.1,
   (remove_record_spec w0 2).2 (by decide)⟩

/-- C4: the displayed balance is the income total minus the expense
total, where a record counts toward income exactly when its lowercased
category is the income label and toward expense exactly when it is the
expense label; a record matching neither label changes nothing. -/
theorem display_balance_spec (w : Wallet) (f : FileData) (l1 l2 : List Record) (r : Record) :
    (Wallet.display_balance w).1 =
      (Wallet.display_balance w).2.1 - (Wallet.display_balance w).2.2 ∧
    (pyLower r.category ≠ "доход" → pyLower r.category ≠ "расход" →
      Wallet.display_balance ⟨l1 ++ r :: l2, f⟩ = Wallet.display_balance ⟨l1 ++ l2, f⟩) ∧
    (pyLower r.category = "доход" →
      (Wallet.display_balance ⟨l1 ++ r :: l2, f⟩).2.1 =
        (Wallet.display_balance ⟨l1 ++ l2, f⟩).2.1 + r.amount ∧
      (Wallet.display_balance ⟨l1 ++ r :: l2, f⟩).2.2 =
        (Wallet.display_balance ⟨l1 ++ l2, f⟩).2.2) ∧
    (pyLower r.category = "расход" →
      (Wallet.display_balance ⟨l1 ++ r :: l2, f⟩).2.2 =
        (Wallet.display_balance ⟨l1 ++ l2, f⟩).2.2 + r.amount ∧
      (Wallet.display_balance ⟨l1 ++ r :: l2, f⟩).2.1 =
        (Wallet.display_balance ⟨l1 ++ l2, f⟩).2.1) := by
  refine ⟨rfl, ?_, ?_, ?_⟩
  · intro h1 h2
    have hb1 : (pyLower r.category == "доход") = false := by
      simp [beq_eq_false_iff_ne, h1]
    have hb2 : (pyLower r.category == "расход") = false := by
      simp [beq_eq_false_iff_ne, h2]
    simp [Wallet.display_balance, List.filter_append, List.filter_cons, hb1, hb2]
  · intro h
    have hb1 : (pyLower r.category == "доход") = true := by simp [h]
    have hb2 : (pyLower r.category == "расход") = false := by
      rw [h]
      decide
    constructor <;>
      simp [Wallet.display_balance, List.filter_append, List.filter_cons, hb1, hb2,
        List.sum_append]
    all_goals ring
  · intro h
    have hb1 : (pyLower r.category == "доход") = false := by
      rw [h]
      decide
    have hb2 : (pyLower r.category == "расход") = true := by simp [h]
    constructor <;>
      simp [Wallet.display_balance, List.filter_append, List.filter_cons, hb1, hb2,
        List.sum_append]
    all_goals ring

theorem display_balance_spec_witness :
    (Wallet.display_balance w0).1 =
      (Wallet.display_balance w0).2.1 - (Wallet.display_balance w0).2.2 ∧
    Wallet.display_balance ⟨[rec1] ++ (⟨"2023-03-01", "Other", 7, "Misc"⟩ : Record) :: [rec2],
        FileData.missing⟩ =
      Wallet.display_balance ⟨[rec1] ++ [rec2], FileData.missing⟩ :=
  ⟨(display_balance_spec w0 FileData.missing [] [] rec1).1,
   (display_balance_spec w0 FileData.missing [rec1] [rec2]
      ⟨"2023-03-01", "Other", 7, "Misc"⟩).2.1 (by decide) (by decide)⟩

/-- C2 counterexample: the code accepts "2023-1-1" (CPython strptime
lets the month and day be written with a single digit), while the claim,
which demands 2-digit month and day fields, rejects it; so the claimed
equivalence fails at this input. -/
theorem validate_date_counterexample :
    validate_date "2023-1-1" = true ∧ specStrictDate "2023-1-1" = false := by
  constructor
  · decide
  · decide

/-- C2 (amended): validate_date is true exactly on the dates the amended
format describes: dash-separated year-month-day where the year has
exactly four digits and is at least 0001, the month is one or two digits
with value 1-12, and the day is one or two digits valid for that month
and year, leap years included; every other separator, ordering or shape
is rejected, and the function is total.  (The only change from the claim
is that month and day may be written with one digit as well as two.) -/
theorem validate_date_amended (s : String) : validate_date s = specFlexDate s := by
  cases hv : validate_date s with
  | true => exact ((specFlexDate_iff s).mpr ((validate_date_iff s).mp hv)).symm
  | false =>
    cases hf : specFlexDate s with
    | false => rfl
    | true =>
      rw [(validate_date_iff s).mpr ((specFlexDate_iff s).mp hf)] at hv
      cases hv

/-- The spec's own test vectors for the date validator, as a sanity
check of the embedding. -/
example :
    validate_date "2023-01-01" = true ∧ validate_date "01-01-2023" = false ∧
    validate_date "2023-02-29" = false ∧ validate_date "2023/01/01" = false ∧
    validate_date "2024-02-29" = true := by
  refine ⟨by decide, by decide, by decide, by decide, by decide⟩

end EffWallet
